import Mathlib

/-!
Verification of the live ISS tracker engine (`src/app/page.tsx`).

The computable sections embed the trail buffer, TLE extraction, camera flags,
pass-prediction scan, orbit-segment builder and telemetry poll handler from the
source. The real-valued sections embed the footprint-radius formula and the
terminator / subsolar-point computation.
-/

namespace IssTracker

/-- Maximum number of retained trail points, `TRAIL_MAX_POINTS` in the source. -/
def TRAIL_MAX_POINTS : ℕ := 200

/-- Maximum number of emitted passes, `PASS_MAX` in the source. -/
def PASS_MAX : ℕ := 5

/-- Pass elevation threshold in degrees, `MIN_ELEVATION_DEG` in the source. -/
def MIN_ELEVATION_DEG : ℚ := 10

/-- Telemetry record returned by the live feed, `IssData` in the source. -/
structure IssData where
  latitude : ℚ
  longitude : ℚ
  altitude : ℚ
  velocity : ℚ
  timestamp : ℚ
deriving DecidableEq

/-- Appends a point and keeps the last `TRAIL_MAX_POINTS` entries, mirroring
`trailRef.current = [...trailRef.current, current].slice(-TRAIL_MAX_POINTS)`. -/
def trailAppend (t : List (ℚ × ℚ)) (p : ℚ × ℚ) : List (ℚ × ℚ) :=
  (t ++ [p]).drop (t.length + 1 - TRAIL_MAX_POINTS)

lemma trailAppend_eq (t : List (ℚ × ℚ)) (p : ℚ × ℚ) :
    trailAppend t p = (t ++ [p]).drop (t.length + 1 - 200) := rfl

lemma trailAppend_length_le (t : List (ℚ × ℚ)) (p : ℚ × ℚ) :
    (trailAppend t p).length ≤ 200 := by
  rw [trailAppend_eq]
  simp
  omega

lemma foldl_trailAppend (ps : List (ℚ × ℚ)) :
    ∀ t : List (ℚ × ℚ), t.length ≤ 200 →
      List.foldl trailAppend t ps = (t ++ ps).drop (t.length + ps.length - 200) := by
  induction ps with
  | nil =>
    intro t ht
    have h0 : t.length + List.length ([] : List (ℚ × ℚ)) - 200 = 0 := by
      simp
      omega
    rw [h0]
    simp
  | cons p ps ih =>
    intro t ht
    have hule : (trailAppend t p).length ≤ 200 := trailAppend_length_le t p
    have hstep := ih (trailAppend t p) hule
    have hk : t.length + 1 - 200 ≤ (t ++ [p]).length := by
      simp
      omega
    have hdropapp : trailAppend t p ++ ps =
        ((t ++ [p]) ++ ps).drop (t.length + 1 - 200) := by
      rw [trailAppend_eq, List.drop_append_of_le_length hk]
    have hulen : (trailAppend t p).length = t.length + 1 - (t.length + 1 - 200) := by
      rw [trailAppend_eq]
      simp
    have harith : (t.length + 1 - 200) +
        ((trailAppend t p).length + ps.length - 200) =
        t.length + (p :: ps).length - 200 := by
      rw [hulen]
      simp only [List.length_cons]
      omega
    have hassoc : (t ++ [p]) ++ ps = t ++ p :: ps := by
      rw [List.append_assoc, List.singleton_append]
    have : List.foldl trailAppend t (p :: ps) =
        (((t ++ [p]) ++ ps).drop (t.length + 1 - 200)).drop
          ((trailAppend t p).length + ps.length - 200) := by
      rw [List.foldl_cons, hstep, hdropapp]
    rw [this, List.drop_drop, harith, hassoc]

/-- C5: starting from the empty trail, after appending any sequence of points the
trail is exactly the last `TRAIL_MAX_POINTS` points of the appended sequence, in
insertion order; in particular its length never exceeds 200 and eviction is
strictly FIFO (the oldest points are the ones dropped). -/
theorem trail_capped_fifo (ps : List (ℚ × ℚ)) :
    (List.foldl trailAppend [] ps).length ≤ TRAIL_MAX_POINTS ∧
      List.foldl trailAppend [] ps = ps.drop (ps.length - TRAIL_MAX_POINTS) := by
  have h := foldl_trailAppend ps [] (by simp)
  simp only [List.length_nil, List.nil_append, Nat.zero_add] at h
  have hT : TRAIL_MAX_POINTS = 200 := rfl
  refine ⟨?_, by rw [hT]; exact h⟩
  rw [hT, h]
  simp
  omega

/-- Render-state fields of the page that `updateMapFromData` touches: whether the
map and the leaflet module are initialized (`mapRef`/`leafletRef`), the latest
fix (`latestDataRef`), the trail (`trailRef`) and the footprint flag. -/
structure MapS where
  ready : Bool
  latest : Option IssData
  trail : List (ℚ × ℚ)
  showFootprint : Bool
deriving DecidableEq

/-- Trail effect of `updateMapFromData`: bail out unless the map is initialized and
a fix exists, otherwise append `[longitude, latitude]` of the latest fix. -/
def updateMapFromData (s : MapS) : MapS :=
  match s.ready, s.latest with
  | true, some latest => { s with trail := trailAppend s.trail (latest.longitude, latest.latitude) }
  | _, _ => s

/-- Toggling the footprint button flips `showFootprint` and re-runs
`updateMapFromData` (the effect hook keyed on `[showFootprint]`). -/
def toggleFootprint (s : MapS) : MapS :=
  updateMapFromData { s with showFootprint := !s.showFootprint }

/-- C10: `updateMapFromData` always appends the latest fix to the trail when a fix
exists, and this also runs on a footprint toggle, so a toggle with an unchanged
fix appends a duplicate of that fix's coordinates (growing the trail by one while
under the cap) — the toggle does not leave the trail unchanged. -/
theorem footprint_toggle_appends_to_trail (s : MapS) (d : IssData)
    (hready : s.ready = true) (hlatest : s.latest = some d) :
    (updateMapFromData s).trail = trailAppend s.trail (d.longitude, d.latitude) ∧
      (toggleFootprint s).trail = trailAppend s.trail (d.longitude, d.latitude) ∧
      (s.trail.length < TRAIL_MAX_POINTS →
        (toggleFootprint s).trail = s.trail ++ [(d.longitude, d.latitude)] ∧
          (toggleFootprint s).trail.length = s.trail.length + 1 ∧
          (toggleFootprint s).trail ≠ s.trail) := by
  have hupd : (updateMapFromData s).trail = trailAppend s.trail (d.longitude, d.latitude) := by
    unfold updateMapFromData
    rw [hready, hlatest]
  have htog : (toggleFootprint s).trail = trailAppend s.trail (d.longitude, d.latitude) := by
    unfold toggleFootprint updateMapFromData
    simp only [hready, hlatest]
  refine ⟨hupd, htog, fun hlen => ?_⟩
  have hT : TRAIL_MAX_POINTS = 200 := rfl
  rw [hT] at hlen
  have happ : trailAppend s.trail (d.longitude, d.latitude) =
      s.trail ++ [(d.longitude, d.latitude)] := by
    rw [trailAppend_eq]
    have : s.trail.length + 1 - 200 = 0 := by omega
    rw [this, List.drop_zero]
  have hlen2 : (toggleFootprint s).trail.length = s.trail.length + 1 := by
    rw [htog, happ]
    simp
  refine ⟨by rw [htog, happ], hlen2, fun hcontra => ?_⟩
  have := congrArg List.length hcontra
  rw [hlen2] at this
  omega

/-- Witness for C10 at a concrete state with a stored fix and an empty trail. -/
theorem footprint_toggle_appends_to_trail_witness :
    (updateMapFromData ⟨true, some ⟨1, 2, 420, 27000, 0⟩, [], false⟩).trail =
        trailAppend [] (2, 1) ∧
      (toggleFootprint ⟨true, some ⟨1, 2, 420, 27000, 0⟩, [], false⟩).trail =
        trailAppend [] (2, 1) ∧
      (([] : List (ℚ × ℚ)).length < TRAIL_MAX_POINTS →
        (toggleFootprint ⟨true, some ⟨1, 2, 420, 27000, 0⟩, [], false⟩).trail =
            [] ++ [(2, 1)] ∧
          (toggleFootprint ⟨true, some ⟨1, 2, 420, 27000, 0⟩, [], false⟩).trail.length =
            ([] : List (ℚ × ℚ)).length + 1 ∧
          (toggleFootprint ⟨true, some ⟨1, 2, 420, 27000, 0⟩, [], false⟩).trail ≠ []) :=
  footprint_toggle_appends_to_trail ⟨true, some ⟨1, 2, 420, 27000, 0⟩, [], false⟩
    ⟨1, 2, 420, 27000, 0⟩ rfl rfl

/-- Splits a character stream at newline characters, the char-level model of the
JavaScript `text.split(/\r?\n/)` (any carriage return left at a line end is
removed by the subsequent trim, exactly as in the source pipeline). -/
def splitLinesAux : List Char → List Char → List (List Char)
  | [], acc => [acc.reverse]
  | c :: rest, acc =>
    if c = '\n' then acc.reverse :: splitLinesAux rest []
    else splitLinesAux rest (c :: acc)

/-- Removes leading and trailing whitespace, the char-level model of the
JavaScript `line.trim()`. -/
def trimChars (cs : List Char) : List Char :=
  ((cs.dropWhile Char.isWhitespace).reverse.dropWhile Char.isWhitespace).reverse

/-- Character-level model of the JavaScript `line.startsWith(pre)`. -/
def jsStartsWith (l pre : String) : Bool :=
  pre.data.isPrefixOf l.data

/-- Nonblank trimmed lines of the fetched TLE text, mirroring
`text.split(/\r?\n/).map(l => l.trim()).filter(Boolean)`. -/
def linesOf (text : String) : List String :=
  (((splitLinesAux text.data []).map trimChars).filter (fun cs => !cs.isEmpty)).map
    String.mk

/-- Line selection of `fetchTle`: take lines 1–2 when line 1 starts with `"1 "`,
otherwise fall back to lines 2–3 when at least three lines exist. -/
def tleSelect (lines : List String) : String × String :=
  if decide (2 ≤ lines.length) && jsStartsWith (lines.getD 0 "") "1 " then
    (lines.getD 0 "", lines.getD 1 "")
  else if 3 ≤ lines.length then
    (lines.getD 1 "", lines.getD 2 "")
  else ("", "")

/-- Extraction result of `fetchTle` on fetched text: `none` models the thrown
`TLE format not recognized` error. -/
def fetchTle (text : String) : Option (String × String) :=
  let lp := tleSelect (linesOf text)
  if lp.1 = "" ∨ lp.2 = "" then none else some lp

/-- C2 counterexample: a text in which no nonblank line starts with `"1 "` on which
the extraction nevertheless succeeds (the fallback branch takes lines 2–3 without
checking the marker), refuting the claim that it must fail with a `FormatError`. -/
theorem tle_extract_no_marker_succeeds :
    (∀ l ∈ linesOf "alpha\nbeta\ngamma", jsStartsWith l "1 " = false) ∧
      (fetchTle "alpha\nbeta\ngamma").isSome = true := by
  constructor
  · decide
  · decide

lemma mem_linesOf_ne_empty {text : String} {l : String} (h : l ∈ linesOf text) :
    l ≠ "" := by
  unfold linesOf at h
  rw [List.mem_map] at h
  obtain ⟨cs, hcs, hl⟩ := h
  have hne := List.of_mem_filter hcs
  intro hcon
  rw [hcon] at hl
  have : cs = [] := congrArg String.data hl
  rw [this] at hne
  simp at hne

/-- C2 amended: on text in which no nonblank line starts with the `"1 "` marker,
extraction fails exactly when there are fewer than three nonblank lines; with
three or more it succeeds anyway, taking the second and third lines unchecked. -/
theorem tle_extract_no_marker_amended (text : String)
    (h : ∀ l ∈ linesOf text, jsStartsWith l "1 " = false) :
    ((fetchTle text).isSome = true ↔ 3 ≤ (linesOf text).length) ∧
      (3 ≤ (linesOf text).length →
        fetchTle text = some ((linesOf text).getD 1 "", (linesOf text).getD 2 "")) := by
  unfold fetchTle tleSelect
  rcases hl : linesOf text with _ | ⟨a, _ | ⟨b, _ | ⟨c, rest⟩⟩⟩
  · simp
  · simp
  · have ha : jsStartsWith a "1 " = false := h a (by rw [hl]; simp)
    simp [ha]
  · have ha : jsStartsWith a "1 " = false := h a (by rw [hl]; simp)
    have hb : b ≠ "" := @mem_linesOf_ne_empty text b (by rw [hl]; simp)
    have hc : c ≠ "" := @mem_linesOf_ne_empty text c (by rw [hl]; simp)
    simp [ha, hb, hc]

/-- Witness for C2's amended theorem at a concrete two-line text without the
marker, where extraction indeed fails. -/
theorem tle_extract_no_marker_amended_witness :
    (∀ l ∈ linesOf "alpha\nbeta", jsStartsWith l "1 " = false) ∧
      ((fetchTle "alpha\nbeta").isSome = true ↔ 3 ≤ (linesOf "alpha\nbeta").length) :=
  ⟨by decide, (tle_extract_no_marker_amended "alpha\nbeta" (by decide)).1⟩

/-- Map view: center coordinates and zoom level. -/
structure MapView where
  center : ℚ × ℚ
  zoom : ℚ
deriving DecidableEq

/-- Camera-relevant state: `hasCenteredRef`, `followRef` and the current view. -/
structure CameraS where
  hasCentered : Bool
  follow : Bool
  view : MapView
deriving DecidableEq

/-- Initial camera state: `hasCenteredRef = false`, `followRef = true`, and the
view set by `initMap` via `setView([0, 0], 1.6)`. -/
def camInit : CameraS :=
  ⟨false, true, ⟨(0, 0), 1.6⟩⟩

/-- User pan/zoom gesture: the `dragstart`/`zoomstart` handlers run
`setFollowIss(false)`. -/
def applyGesture (s : CameraS) : CameraS :=
  { s with follow := false }

/-- View effect of applying a LiveFix in `updateMapFromData` (lines 135–140):
an uncentered camera jumps to the fix at zoom 2.6 and records the centering;
otherwise the view is re-centered only while following. -/
def applyFix (s : CameraS) (p : ℚ × ℚ) : CameraS :=
  if !s.hasCentered then { s with view := ⟨p, 2.6⟩, hasCentered := true }
  else if s.follow then { s with view := ⟨p, s.view.zoom⟩ }
  else s

/-- C3 counterexample: a gesture made before any fix puts the camera in the free
state (`follow = false`), yet the first fix applied afterwards still changes the
view (the `!hasCenteredRef` branch re-centers unconditionally), refuting the
claim that a fix applied while free never changes the view. -/
theorem gesture_before_first_fix_still_recenters :
    (applyGesture camInit).follow = false ∧
      (applyFix (applyGesture camInit) (10, 20)).view ≠ (applyGesture camInit).view := by
  decide

/-- C3 amended: after any user-initiated gesture — from any state, following or
not — the follow flag is off (camera Free); a fix applied while Free leaves the
whole camera state unchanged provided the initial centering has already happened;
and a fix arriving before the first centering re-centers regardless of the free
state. -/
theorem free_camera_fix_amended (s : CameraS) (p : ℚ × ℚ) :
    (applyGesture s).follow = false ∧
      (s.follow = false → s.hasCentered = true → applyFix s p = s) ∧
      (s.hasCentered = false →
        (applyFix s p).view = ⟨p, 2.6⟩ ∧ (applyFix s p).hasCentered = true) := by
  refine ⟨rfl, fun hfree hc => ?_, fun hc => ?_⟩
  · simp [applyFix, hc, hfree]
  · simp [applyFix, hc]

/-- Witness for C3's amended theorem: the gesture conjunct at a concrete following
state, the no-op conjunct at a concrete free centered state, and the initial-jump
conjunct at the uncentered initial state. -/
theorem free_camera_fix_amended_witness :
    (applyGesture ⟨true, true, ⟨(0, 0), 1.6⟩⟩).follow = false ∧
      applyFix ⟨true, false, ⟨(3, 4), 5⟩⟩ (7, 8) = ⟨true, false, ⟨(3, 4), 5⟩⟩ ∧
      (applyFix camInit (7, 8)).view = ⟨(7, 8), 2.6⟩ ∧
      (applyFix camInit (7, 8)).hasCentered = true :=
  ⟨(free_camera_fix_amended ⟨true, true, ⟨(0, 0), 1.6⟩⟩ (7, 8)).1,
    (free_camera_fix_amended ⟨true, false, ⟨(3, 4), 5⟩⟩ (7, 8)).2.1 rfl rfl,
    ((free_camera_fix_amended camInit (7, 8)).2.2 rfl).1,
    ((free_camera_fix_amended camInit (7, 8)).2.2 rfl).2⟩

/-- State touched by the telemetry poller `fetchIss`: the stored fix (`data`), the
error banner (`error`) and the loading flag. -/
structure PollS where
  data : Option IssData
  error : Option String
  loading : Bool
deriving DecidableEq

/-- Outcome of one poll attempt: a parsed payload, a non-2xx HTTP status, or a
transport failure with an error message. -/
inductive PollOutcome where
  | success (payload : IssData)
  | httpError (status : ℕ)
  | transportError (message : String)

/-- One `fetchIss` attempt: the error is cleared at the start of the attempt; on
success the payload is stored; on a non-2xx status or transport failure only the
error (and loading flag) change, never the stored fix. -/
def fetchIss (s : PollS) (o : PollOutcome) : PollS :=
  let s1 : PollS := { s with error := none }
  match o with
  | .success payload => { s1 with data := some payload, loading := false }
  | .httpError status =>
      { s1 with error := some ("Request failed with " ++ toString status), loading := false }
  | .transportError message => { s1 with error := some message, loading := false }

/-- Polling cadence: `setInterval` keeps invoking `fetchIss` on every tick
independently of prior outcomes. -/
def pollRun (s : PollS) (os : List PollOutcome) : PollS :=
  os.foldl fetchIss s

/-- C9: a failed poll attempt (non-2xx status or transport failure) leaves the
stored fix unchanged, publishes an error description, and the polling run keeps
processing subsequent ticks; a successful attempt stores the new fix and clears
the error. -/
theorem poll_failure_preserves_fix (s : PollS) (status : ℕ) (message : String)
    (payload : IssData) (os : List PollOutcome) :
    (fetchIss s (.httpError status)).data = s.data ∧
      (fetchIss s (.httpError status)).error =
        some ("Request failed with " ++ toString status) ∧
      (fetchIss s (.transportError message)).data = s.data ∧
      (fetchIss s (.transportError message)).error = some message ∧
      (fetchIss s (.success payload)).data = some payload ∧
      (fetchIss s (.success payload)).error = none ∧
      pollRun s (.httpError status :: os) = pollRun (fetchIss s (.httpError status)) os ∧
      pollRun s (.transportError message :: os) =
        pollRun (fetchIss s (.transportError message)) os :=
  ⟨rfl, rfl, rfl, rfl, rfl, rfl, rfl, rfl⟩

/-- Predicted pass window, `PassInfo` in the source: start/end times (epoch ms),
duration in seconds, and the maximal elevation rounded to one decimal. -/
structure PassInfo where
  start : ℤ
  stop : ℤ
  durationSec : ℤ
  maxElevationDeg : ℚ
deriving DecidableEq

/-- JavaScript `Math.round`: round half toward positive infinity. -/
def jsRound (q : ℚ) : ℤ :=
  Int.floor (q + 1 / 2)

/-- JavaScript `Number(x.toFixed(1))`: round to one decimal, ties away from
(toward the larger value). -/
def roundTenth (q : ℚ) : ℚ :=
  (Int.floor (10 * q + 1 / 2) : ℚ) / 10

/-- Builds one emitted pass record as in `results.push({...})`. -/
def mkPassInfo (s e : ℤ) (maxE : ℚ) : PassInfo :=
  ⟨s, e, jsRound (((e : ℚ) - (s : ℚ)) / 1000), roundTenth maxE⟩

/-- Scan loop of `computePasses` over the elevation samples: each sample carries
its timestamp and, when propagation produced a position, the elevation in
degrees (`none` models a skipped sample). Emission happens only on a falling
edge; after an emission reaching `PASS_MAX`, the loop breaks. -/
def scanPassesAux : List (ℤ × Option ℚ) → Bool → Option ℤ → ℚ → List PassInfo →
    List PassInfo
  | [], _, _, _, results => results
  | (_, none) :: rest, inPass, passStart, maxE, results =>
      scanPassesAux rest inPass passStart maxE results
  | (t, some elevationDeg) :: rest, inPass, passStart, maxE, results =>
      if MIN_ELEVATION_DEG ≤ elevationDeg then
        if inPass then
          scanPassesAux rest true passStart
            (if maxE < elevationDeg then elevationDeg else maxE) results
        else
          scanPassesAux rest true (some t) elevationDeg results
      else
        match passStart with
        | some ps =>
            if inPass then
              if PASS_MAX ≤ (results ++ [mkPassInfo ps t maxE]).length then
                results ++ [mkPassInfo ps t maxE]
              else scanPassesAux rest false none (-90) (results ++ [mkPassInfo ps t maxE])
            else scanPassesAux rest inPass passStart maxE results
        | none => scanPassesAux rest inPass passStart maxE results

/-- Pass list produced by one `computePasses` scan over the given samples. -/
def scanPasses (samples : List (ℤ × Option ℚ)) : List PassInfo :=
  scanPassesAux samples false none (-90) []

lemma scanPassesAux_cons_some (t : ℤ) (elevationDeg : ℚ) (rest : List (ℤ × Option ℚ))
    (inPass : Bool) (passStart : Option ℤ) (maxE : ℚ) (results : List PassInfo) :
    scanPassesAux ((t, some elevationDeg) :: rest) inPass passStart maxE results =
      if MIN_ELEVATION_DEG ≤ elevationDeg then
        if inPass then
          scanPassesAux rest true passStart
            (if maxE < elevationDeg then elevationDeg else maxE) results
        else
          scanPassesAux rest true (some t) elevationDeg results
      else
        match passStart with
        | some ps =>
            if inPass then
              if PASS_MAX ≤ (results ++ [mkPassInfo ps t maxE]).length then
                results ++ [mkPassInfo ps t maxE]
              else scanPassesAux rest false none (-90) (results ++ [mkPassInfo ps t maxE])
            else scanPassesAux rest inPass passStart maxE results
        | none => scanPassesAux rest inPass passStart maxE results := rfl

lemma scanPassesAux_length (samples : List (ℤ × Option ℚ)) :
    ∀ (inPass : Bool) (passStart : Option ℤ) (maxE : ℚ) (results : List PassInfo),
      results.length < PASS_MAX →
      (scanPassesAux samples inPass passStart maxE results).length ≤ PASS_MAX := by
  induction samples with
  | nil =>
    intro inPass passStart maxE results hlt
    exact le_of_lt hlt
  | cons sample rest ih =>
    intro inPass passStart maxE results hlt
    obtain ⟨t, e⟩ := sample
    cases e with
    | none => exact ih inPass passStart maxE results hlt
    | some elevationDeg =>
      rw [scanPassesAux_cons_some]
      by_cases hth : MIN_ELEVATION_DEG ≤ elevationDeg
      · rw [if_pos hth]
        cases inPass with
        | true => exact ih true passStart _ results hlt
        | false => exact ih true (some t) elevationDeg results hlt
      · rw [if_neg hth]
        cases passStart with
        | none => exact ih inPass none maxE results hlt
        | some ps =>
          cases inPass with
          | false => exact ih false (some ps) maxE results hlt
          | true =>
            show (if PASS_MAX ≤ (results ++ [mkPassInfo ps t maxE]).length then
                results ++ [mkPassInfo ps t maxE]
              else scanPassesAux rest false none (-90)
                (results ++ [mkPassInfo ps t maxE])).length ≤ PASS_MAX
            by_cases hcap : PASS_MAX ≤ (results ++ [mkPassInfo ps t maxE]).length
            · rw [if_pos hcap]
              simp
              omega
            · rw [if_neg hcap]
              simp at hcap
              exact ih false none (-90) _ (by simp; omega)

lemma scanPassesAux_all_high (extra : List (ℤ × Option ℚ))
    (hhigh : ∀ s ∈ extra, ∀ e : ℚ, s.2 = some e → MIN_ELEVATION_DEG ≤ e) :
    ∀ (inPass : Bool) (passStart : Option ℤ) (maxE : ℚ) (results : List PassInfo),
      scanPassesAux extra inPass passStart maxE results = results := by
  induction extra with
  | nil => intro inPass passStart maxE results; rfl
  | cons sample rest ih =>
    intro inPass passStart maxE results
    have hrest : ∀ s ∈ rest, ∀ e : ℚ, s.2 = some e → MIN_ELEVATION_DEG ≤ e :=
      fun s hs => hhigh s (List.mem_cons_of_mem sample hs)
    obtain ⟨t, e⟩ := sample
    cases e with
    | none => exact ih hrest inPass passStart maxE results
    | some elevationDeg =>
      have hth : MIN_ELEVATION_DEG ≤ elevationDeg :=
        hhigh (t, some elevationDeg) (List.mem_cons_self _ _) elevationDeg rfl
      rw [scanPassesAux_cons_some, if_pos hth]
      cases inPass with
      | true => exact ih hrest true passStart _ results
      | false => exact ih hrest true (some t) elevationDeg results

lemma scanPassesAux_append (samples extra : List (ℤ × Option ℚ))
    (hhigh : ∀ s ∈ extra, ∀ e : ℚ, s.2 = some e → MIN_ELEVATION_DEG ≤ e) :
    ∀ (inPass : Bool) (passStart : Option ℤ) (maxE : ℚ) (results : List PassInfo),
      scanPassesAux (samples ++ extra) inPass passStart maxE results =
        scanPassesAux samples inPass passStart maxE results := by
  induction samples with
  | nil =>
    intro inPass passStart maxE results
    rw [List.nil_append, scanPassesAux_all_high extra hhigh]
    rfl
  | cons sample rest ih =>
    intro inPass passStart maxE results
    obtain ⟨t, e⟩ := sample
    cases e with
    | none => exact ih inPass passStart maxE results
    | some elevationDeg =>
      rw [List.cons_append, scanPassesAux_cons_some, scanPassesAux_cons_some]
      by_cases hth : MIN_ELEVATION_DEG ≤ elevationDeg
      · rw [if_pos hth, if_pos hth]
        cases inPass with
        | true => exact ih true passStart _ results
        | false => exact ih true (some t) elevationDeg results
      · rw [if_neg hth, if_neg hth]
        cases passStart with
        | none => exact ih inPass none maxE results
        | some ps =>
          cases inPass with
          | false => exact ih false (some ps) maxE results
          | true =>
            show (if PASS_MAX ≤ (results ++ [mkPassInfo ps t maxE]).length then
                results ++ [mkPassInfo ps t maxE]
              else scanPassesAux (rest ++ extra) false none (-90)
                (results ++ [mkPassInfo ps t maxE])) =
              (if PASS_MAX ≤ (results ++ [mkPassInfo ps t maxE]).length then
                results ++ [mkPassInfo ps t maxE]
              else scanPassesAux rest false none (-90)
                (results ++ [mkPassInfo ps t maxE]))
            by_cases hcap : PASS_MAX ≤ (results ++ [mkPassInfo ps t maxE]).length
            · rw [if_pos hcap, if_pos hcap]
            · rw [if_neg hcap, if_neg hcap]
              exact ih false none (-90) _

/-- C4: a pass-prediction scan never returns more than `PASS_MAX` windows, and a
pass still above the threshold when the scan reaches the end of the lookahead
window is not emitted: extending the sample list with any tail of samples that
never fall below the threshold produces exactly the same output. -/
theorem passes_capped_and_open_pass_discarded (samples : List (ℤ × Option ℚ)) :
    (scanPasses samples).length ≤ PASS_MAX ∧
      ∀ extra : List (ℤ × Option ℚ),
        (∀ s ∈ extra, ∀ e : ℚ, s.2 = some e → MIN_ELEVATION_DEG ≤ e) →
        scanPasses (samples ++ extra) = scanPasses samples := by
  constructor
  · exact scanPassesAux_length samples false none (-90) [] (by simp [PASS_MAX])
  · intro extra hhigh
    exact scanPassesAux_append samples extra hhigh false none (-90) []

/-- Witness for C4 at a concrete scan that enters a pass and never leaves it:
the open pass is discarded and the cap holds. -/
theorem passes_capped_and_open_pass_discarded_witness :
    (scanPasses [(0, some 20), (60000, some 45)]).length ≤ PASS_MAX ∧
      scanPasses ([(0, some 20), (60000, some 45)] ++ [(120000, some 30)]) =
        scanPasses [(0, some 20), (60000, some 45)] :=
  ⟨(passes_capped_and_open_pass_discarded [(0, some 20), (60000, some 45)]).1,
    (passes_capped_and_open_pass_discarded [(0, some 20), (60000, some 45)]).2
      [(120000, some 30)] (by decide)⟩

/-- One sample step of `computeOrbit`'s segment builder (lines 449–458): when the
longitude delta to the previous point exceeds 180°, close the current point run
as a segment and start a new run at the current sample. Points are `(lat, lon)`
pairs; `prev[1]` is the previous longitude. -/
def buildSegStep (st : List (ℚ × ℚ) × List (List (ℚ × ℚ))) (sample : ℚ × ℚ) :
    List (ℚ × ℚ) × List (List (ℚ × ℚ)) :=
  match st.1.getLast? with
  | some prev =>
      if 180 < |sample.2 - prev.2| then ([sample], st.2 ++ [st.1])
      else (st.1 ++ [sample], st.2)
  | none => ([sample], st.2)

/-- Polyline segments produced by one `computeOrbit` sampling run over the
geodetic `(lat, lon)` samples: the final open point run is flushed as the last
segment (an empty run means no samples and nothing is rendered). -/
def computeOrbitSegments (samples : List (ℚ × ℚ)) : List (List (ℚ × ℚ)) :=
  let st := samples.foldl buildSegStep ([], [])
  if st.1.isEmpty then st.2 else st.2 ++ [st.1]

/-- Adjacent-sample relation inside a segment: the longitude delta is at most 180. -/
def lonStep (a b : ℚ × ℚ) : Prop :=
  |b.2 - a.2| ≤ 180

instance : DecidableRel lonStep := fun a b => by
  unfold lonStep
  infer_instance

lemma buildSeg_inv (samples : List (ℚ × ℚ)) :
    ∀ (points : List (ℚ × ℚ)) (segments : List (List (ℚ × ℚ))),
      points.Chain' lonStep → (∀ s ∈ segments, s.Chain' lonStep) →
      (samples.foldl buildSegStep (points, segments)).1.Chain' lonStep ∧
        ∀ s ∈ (samples.foldl buildSegStep (points, segments)).2, s.Chain' lonStep := by
  induction samples with
  | nil => intro points segments hp hs; exact ⟨hp, hs⟩
  | cons sample rest ih =>
    intro points segments hp hs
    rw [List.foldl_cons]
    rcases hlast : points.getLast? with _ | prev
    · have hstep : buildSegStep (points, segments) sample = ([sample], segments) := by
        unfold buildSegStep
        rw [hlast]
      rw [hstep]
      exact ih [sample] segments (List.chain'_singleton sample) hs
    · by_cases hjump : 180 < |sample.2 - prev.2|
      · have hstep : buildSegStep (points, segments) sample =
            ([sample], segments ++ [points]) := by
          unfold buildSegStep
          rw [hlast]
          exact if_pos hjump
        rw [hstep]
        refine ih [sample] (segments ++ [points]) (List.chain'_singleton sample) ?_
        intro s hsmem
        rcases List.mem_append.mp hsmem with hmem | hmem
        · exact hs s hmem
        · rw [List.mem_singleton.mp hmem]
          exact hp
      · have hstep : buildSegStep (points, segments) sample =
            (points ++ [sample], segments) := by
          unfold buildSegStep
          rw [hlast]
          exact if_neg hjump
        rw [hstep]
        refine ih (points ++ [sample]) segments ?_ hs
        rw [List.chain'_append]
        refine ⟨hp, List.chain'_singleton sample, ?_⟩
        intro x hx y hy
        rw [hlast] at hx
        rw [Option.mem_def] at hx
        cases hx
        simp at hy
        subst hy
        unfold lonStep
        exact le_of_not_lt hjump

/-- C6: every polyline segment emitted by the orbit sampler has consecutive
longitude values within 180° of each other (out-of-range indices yield the empty
segment, which holds trivially); the split logic closes a segment whenever the
delta exceeds 180°. -/
theorem orbit_segment_no_antimeridian_jump (samples : List (ℚ × ℚ)) (i : ℕ) :
    ((computeOrbitSegments samples).getD i []).Chain' lonStep := by
  have hall : ∀ s ∈ computeOrbitSegments samples, s.Chain' lonStep := by
    intro s hsmem
    have hinv := buildSeg_inv samples [] [] List.chain'_nil (by simp)
    unfold computeOrbitSegments at hsmem
    by_cases hempty : (samples.foldl buildSegStep ([], [])).1.isEmpty
    · rw [if_pos hempty] at hsmem
      exact hinv.2 s hsmem
    · rw [if_neg hempty] at hsmem
      rcases List.mem_append.mp hsmem with hmem | hmem
      · exact hinv.2 s hmem
      · rw [List.mem_singleton.mp hmem]
        exact hinv.1
  by_cases hi : i < (computeOrbitSegments samples).length
  · rw [List.getD_eq_getElem _ _ hi]
    exact hall _ (List.getElem_mem hi)
  · rw [List.getD_eq_default _ _ (le_of_not_lt hi)]
    exact List.chain'_nil

open Real

noncomputable section

/-- Earth radius in kilometres, `EARTH_RADIUS_KM` in the source. -/
def EARTH_RADIUS_KM : ℝ := 6371

/-- Footprint minimum-elevation threshold in degrees, `FOOTPRINT_MIN_ELEV_DEG`. -/
def FOOTPRINT_MIN_ELEV_DEG : ℝ := 20

/-- Degrees to radians, the `rad` helper in the source. -/
def rad (d : ℝ) : ℝ :=
  d * π / 180

/-- Radians to degrees, the `deg` helper in the source. -/
def deg (radVal : ℝ) : ℝ :=
  radVal * 180 / π

/-- The clamp `Math.min(1, Math.max(-1, x))` applied to the acos argument. -/
def clampUnit (x : ℝ) : ℝ :=
  min 1 (max (-1) x)

/-- Footprint radius in kilometres computed in `updateMapFromData` (lines
167–172): `radius = max(0, R * (acos(clamp((R/(R+h))*cos e, -1, 1)) - e))`. -/
def footprintRadiusKm (altitudeKm elev : ℝ) : ℝ :=
  max 0 (EARTH_RADIUS_KM *
    (Real.arccos (clampUnit (EARTH_RADIUS_KM / (EARTH_RADIUS_KM + altitudeKm) * Real.cos elev)) -
      elev))

/-- C8: the footprint computation is a pure function of (altitude, threshold),
its acos argument is always clamped into [-1, 1] (so no domain error can occur,
including at altitude 0 or threshold 90°), and the returned radius is
non-negative for every altitude ≥ 0 and threshold up to 90°. -/
theorem footprint_pure_clamped_nonneg (h e : ℝ) (_hh : 0 ≤ h) (_he0 : 0 ≤ e)
    (_he : e ≤ rad 90) :
    (∀ h2 e2, h2 = h → e2 = e → footprintRadiusKm h2 e2 = footprintRadiusKm h e) ∧
      (-1 ≤ clampUnit (EARTH_RADIUS_KM / (EARTH_RADIUS_KM + h) * Real.cos e) ∧
        clampUnit (EARTH_RADIUS_KM / (EARTH_RADIUS_KM + h) * Real.cos e) ≤ 1) ∧
      0 ≤ footprintRadiusKm h e := by
  refine ⟨fun h2 e2 hh2 he2 => by rw [hh2, he2], ⟨?_, ?_⟩, le_max_left 0 _⟩
  · unfold clampUnit
    exact le_min (by norm_num) (le_max_left (-1) _)
  · exact min_le_left 1 _

/-- Witness for C8 at altitude 0 and threshold 90° (the corner the claim names). -/
theorem footprint_pure_clamped_nonneg_witness :
    (∀ h2 e2, h2 = (0 : ℝ) → e2 = rad 90 → footprintRadiusKm h2 e2 = footprintRadiusKm 0 (rad 90)) ∧
      (-1 ≤ clampUnit (EARTH_RADIUS_KM / (EARTH_RADIUS_KM + 0) * Real.cos (rad 90)) ∧
        clampUnit (EARTH_RADIUS_KM / (EARTH_RADIUS_KM + 0) * Real.cos (rad 90)) ≤ 1) ∧
      0 ≤ footprintRadiusKm 0 (rad 90) :=
  footprint_pure_clamped_nonneg 0 (rad 90) le_rfl
    (by unfold rad; positivity) le_rfl

lemma nonneg_of_deriv_nonneg (f g : ℝ → ℝ) (hd : ∀ t : ℝ, HasDerivAt f (g t) t)
    (h0 : f 0 = 0) (hg : ∀ t : ℝ, 0 ≤ t → 0 ≤ g t) {x : ℝ} (hx : 0 ≤ x) :
    0 ≤ f x := by
  have hmono : MonotoneOn f (Set.Ici (0 : ℝ)) := by
    apply monotoneOn_of_deriv_nonneg (convex_Ici 0)
    · intro t ht
      exact (hd t).continuousAt.continuousWithinAt
    · intro t ht
      exact (hd t).differentiableAt.differentiableWithinAt
    · intro t ht
      rw [interior_Ici] at ht
      rw [(hd t).deriv]
      exact hg t (le_of_lt ht)
  have h := hmono Set.left_mem_Ici (Set.mem_Ici.mpr hx) hx
  rwa [h0] at h

lemma sin_ge_cubic (x : ℝ) (hx : 0 ≤ x) : x - x ^ 3 / 6 ≤ Real.sin x := by
  have key : 0 ≤ Real.sin x - (x - x ^ 3 / 6) := by
    refine nonneg_of_deriv_nonneg (fun t => Real.sin t - (t - t ^ 3 / 6))
      (fun t => Real.cos t - (1 - 3 * t ^ 2 / 6)) (fun t => ?_) (by norm_num)
      (fun t ht => ?_) hx
    · have h1 := (hasDerivAt_pow 3 t).div_const (6 : ℝ)
      have h2 := (hasDerivAt_id t).sub h1
      have h3 := (Real.hasDerivAt_sin t).sub h2
      exact h3
    · have hc := @Real.one_sub_sq_div_two_le_cos t
      nlinarith
  linarith

lemma cos_le_quartic (x : ℝ) (hx : 0 ≤ x) :
    Real.cos x ≤ 1 - x ^ 2 / 2 + x ^ 4 / 24 := by
  have key : 0 ≤ 1 - x ^ 2 / 2 + x ^ 4 / 24 - Real.cos x := by
    refine nonneg_of_deriv_nonneg (fun t => 1 - t ^ 2 / 2 + t ^ 4 / 24 - Real.cos t)
      (fun t => Real.sin t - (t - t ^ 3 / 6)) (fun t => ?_) (by simp)
      (fun t ht => ?_) hx
    · have h1 := (hasDerivAt_const t (1 : ℝ)).sub ((hasDerivAt_pow 2 t).div_const (2 : ℝ))
      have h2 := h1.add ((hasDerivAt_pow 4 t).div_const (24 : ℝ))
      have h3 := h2.sub (Real.hasDerivAt_cos t)
      first
      | exact h3
      | (convert h3 using 1; push_cast; ring)
    · have hc := sin_ge_cubic t ht
      linarith
  linarith

lemma sin_le_quintic (x : ℝ) (hx : 0 ≤ x) :
    Real.sin x ≤ x - x ^ 3 / 6 + x ^ 5 / 120 := by
  have key : 0 ≤ x - x ^ 3 / 6 + x ^ 5 / 120 - Real.sin x := by
    refine nonneg_of_deriv_nonneg (fun t => t - t ^ 3 / 6 + t ^ 5 / 120 - Real.sin t)
      (fun t => 1 - t ^ 2 / 2 + t ^ 4 / 24 - Real.cos t) (fun t => ?_) (by norm_num)
      (fun t ht => ?_) hx
    · have h1 := (hasDerivAt_id t).sub ((hasDerivAt_pow 3 t).div_const (6 : ℝ))
      have h2 := h1.add ((hasDerivAt_pow 5 t).div_const (120 : ℝ))
      have h3 := h2.sub (Real.hasDerivAt_sin t)
      first
      | exact h3
      | (convert h3 using 1; push_cast; ring)
    · have hc := cos_le_quartic t ht
      linarith
  linarith

lemma cos_ge_sextic (x : ℝ) (hx : 0 ≤ x) :
    1 - x ^ 2 / 2 + x ^ 4 / 24 - x ^ 6 / 720 ≤ Real.cos x := by
  have key : 0 ≤ Real.cos x - (1 - x ^ 2 / 2 + x ^ 4 / 24 - x ^ 6 / 720) := by
    refine nonneg_of_deriv_nonneg
      (fun t => Real.cos t - (1 - t ^ 2 / 2 + t ^ 4 / 24 - t ^ 6 / 720))
      (fun t => t - t ^ 3 / 6 + t ^ 5 / 120 - Real.sin t) (fun t => ?_) (by simp)
      (fun t ht => ?_) hx
    · have h1 := (hasDerivAt_const t (1 : ℝ)).sub ((hasDerivAt_pow 2 t).div_const (2 : ℝ))
      have h2 := h1.add ((hasDerivAt_pow 4 t).div_const (24 : ℝ))
      have h3 := h2.sub ((hasDerivAt_pow 6 t).div_const (720 : ℝ))
      have h4 := (Real.hasDerivAt_cos t).sub h3
      first
      | exact h4
      | (convert h4 using 1; push_cast; ring)
    · have hc := sin_le_quintic t ht
      linarith
  linarith

lemma le_arccos_of_le_cos {y B : ℝ} (hB0 : 0 ≤ B) (hBpi : B ≤ π) (hy1 : -1 ≤ y)
    (hy : y ≤ Real.cos B) : B ≤ Real.arccos y := by
  by_contra hcon
  push_neg at hcon
  have hlt := Real.strictAntiOn_cos
    ⟨Real.arccos_nonneg y, Real.arccos_le_pi y⟩ ⟨hB0, hBpi⟩ hcon
  rw [Real.cos_arccos hy1 (le_trans hy (Real.cos_le_one B))] at hlt
  linarith

lemma arccos_le_of_cos_le {y B : ℝ} (hB0 : 0 ≤ B) (hBpi : B ≤ π) (hy1 : y ≤ 1)
    (hy : Real.cos B ≤ y) : Real.arccos y ≤ B := by
  by_contra hcon
  push_neg at hcon
  have hlt := Real.strictAntiOn_cos
    ⟨hB0, hBpi⟩ ⟨Real.arccos_nonneg y, Real.arccos_le_pi y⟩ hcon
  rw [Real.cos_arccos (le_trans (Real.neg_one_le_cos B) hy) hy1] at hlt
  linarith

lemma clampUnit_eq_self {x : ℝ} (h1 : -1 ≤ x) (h2 : x ≤ 1) : clampUnit x = x := by
  unfold clampUnit
  rw [max_eq_right h1, min_eq_right h2]

lemma prod_bounds (e : ℝ) :
    -1 ≤ 6371 / 6791 * Real.cos e ∧ 6371 / 6791 * Real.cos e ≤ 1 := by
  constructor
  · nlinarith [Real.neg_one_le_cos e, Real.cos_le_one e]
  · nlinarith [Real.neg_one_le_cos e, Real.cos_le_one e]

lemma footprint420_eq (e : ℝ) : footprintRadiusKm 420 e =
    max 0 (6371 * (Real.arccos (6371 / 6791 * Real.cos e) - e)) := by
  unfold footprintRadiusKm EARTH_RADIUS_KM
  rw [show (6371 : ℝ) / (6371 + 420) = 6371 / 6791 by norm_num]
  rw [clampUnit_eq_self (prod_bounds e).1 (prod_bounds e).2]

lemma f20_ge : 906 ≤ footprintRadiusKm 420 (rad 20) := by
  have hpil := Real.pi_gt_d6
  have hpiu := Real.pi_lt_d6
  have he_eq : rad 20 = 20 * π / 180 := rfl
  have hel : (0.34906577 : ℝ) ≤ rad 20 := by
    rw [he_eq]
    linarith
  have heh : rad 20 ≤ 0.34906589 := by
    rw [he_eq]
    linarith
  have hepi : rad 20 ≤ π := by
    linarith
  have hcos_le : Real.cos (rad 20) ≤
      1 - (0.34906577 : ℝ) ^ 2 / 2 + (0.34906577 : ℝ) ^ 4 / 24 := by
    have h1 : Real.cos (rad 20) ≤ Real.cos 0.34906577 :=
      Real.cos_le_cos_of_nonneg_of_le_pi (by norm_num) hepi hel
    have h2 := cos_le_quartic 0.34906577 (by norm_num)
    linarith
  set B := (0.34906589 + 906 / 6371 : ℝ) with hB
  have hB0 : (0 : ℝ) ≤ B := by
    rw [hB]
    norm_num
  have hBpi : B ≤ π := by
    rw [hB]
    linarith
  have hcosB_ge := cos_ge_sextic B hB0
  have hkey : (6371 / 6791 : ℝ) *
      (1 - (0.34906577 : ℝ) ^ 2 / 2 + (0.34906577 : ℝ) ^ 4 / 24) ≤
      1 - B ^ 2 / 2 + B ^ 4 / 24 - B ^ 6 / 720 := by
    rw [hB]
    norm_num
  have hprod_le : (6371 / 6791 : ℝ) * Real.cos (rad 20) ≤ Real.cos B := by
    have hmul := mul_le_mul_of_nonneg_left hcos_le (show (0 : ℝ) ≤ 6371 / 6791 by norm_num)
    linarith
  have harccos := le_arccos_of_le_cos hB0 hBpi (prod_bounds (rad 20)).1 hprod_le
  rw [footprint420_eq]
  have hmain : (906 : ℝ) ≤
      6371 * (Real.arccos (6371 / 6791 * Real.cos (rad 20)) - rad 20) := by
    have hBe : (906 : ℝ) / 6371 ≤ B - rad 20 := by
      rw [hB]
      linarith
    linarith
  exact le_trans hmain (le_max_right 0 _)

lemma f20_le : footprintRadiusKm 420 (rad 20) ≤ 910 := by
  have hpil := Real.pi_gt_d6
  have hpiu := Real.pi_lt_d6
  have he_eq : rad 20 = 20 * π / 180 := rfl
  have hel : (0.34906577 : ℝ) ≤ rad 20 := by
    rw [he_eq]
    linarith
  have heh : rad 20 ≤ 0.34906589 := by
    rw [he_eq]
    linarith
  have he0 : (0 : ℝ) ≤ rad 20 := by
    linarith
  have hcos_ge : 1 - (0.34906589 : ℝ) ^ 2 / 2 + (0.34906589 : ℝ) ^ 4 / 24 -
      (0.34906589 : ℝ) ^ 6 / 720 ≤ Real.cos (rad 20) := by
    have h1 : Real.cos 0.34906589 ≤ Real.cos (rad 20) :=
      Real.cos_le_cos_of_nonneg_of_le_pi he0 (by linarith) heh
    have h2 := cos_ge_sextic 0.34906589 (by norm_num)
    linarith
  set B := (0.34906577 + 910 / 6371 : ℝ) with hB
  have hB0 : (0 : ℝ) ≤ B := by
    rw [hB]
    norm_num
  have hBpi : B ≤ π := by
    rw [hB]
    linarith
  have hcosB_le := cos_le_quartic B hB0
  have hkey : 1 - B ^ 2 / 2 + B ^ 4 / 24 ≤
      (6371 / 6791 : ℝ) * (1 - (0.34906589 : ℝ) ^ 2 / 2 + (0.34906589 : ℝ) ^ 4 / 24 -
        (0.34906589 : ℝ) ^ 6 / 720) := by
    rw [hB]
    norm_num
  have hprod_ge : Real.cos B ≤ (6371 / 6791 : ℝ) * Real.cos (rad 20) := by
    have hmul := mul_le_mul_of_nonneg_left hcos_ge (show (0 : ℝ) ≤ 6371 / 6791 by norm_num)
    linarith
  have harccos := arccos_le_of_cos_le hB0 hBpi (prod_bounds (rad 20)).2 hprod_ge
  rw [footprint420_eq]
  refine max_le (by norm_num) ?_
  have hBe : B - rad 20 ≤ (910 : ℝ) / 6371 := by
    rw [hB]
    linarith
  linarith

lemma f10_ge : 1388 ≤ footprintRadiusKm 420 (rad 10) := by
  have hpil := Real.pi_gt_d6
  have hpiu := Real.pi_lt_d6
  have he_eq : rad 10 = 10 * π / 180 := rfl
  have hel : (0.17453288 : ℝ) ≤ rad 10 := by
    rw [he_eq]
    linarith
  have heh : rad 10 ≤ 0.17453295 := by
    rw [he_eq]
    linarith
  have hepi : rad 10 ≤ π := by
    linarith
  have hcos_le : Real.cos (rad 10) ≤
      1 - (0.17453288 : ℝ) ^ 2 / 2 + (0.17453288 : ℝ) ^ 4 / 24 := by
    have h1 : Real.cos (rad 10) ≤ Real.cos 0.17453288 :=
      Real.cos_le_cos_of_nonneg_of_le_pi (by norm_num) hepi hel
    have h2 := cos_le_quartic 0.17453288 (by norm_num)
    linarith
  set B := (0.17453295 + 1388 / 6371 : ℝ) with hB
  have hB0 : (0 : ℝ) ≤ B := by
    rw [hB]
    norm_num
  have hBpi : B ≤ π := by
    rw [hB]
    linarith
  have hcosB_ge := cos_ge_sextic B hB0
  have hkey : (6371 / 6791 : ℝ) *
      (1 - (0.17453288 : ℝ) ^ 2 / 2 + (0.17453288 : ℝ) ^ 4 / 24) ≤
      1 - B ^ 2 / 2 + B ^ 4 / 24 - B ^ 6 / 720 := by
    rw [hB]
    norm_num
  have hprod_le : (6371 / 6791 : ℝ) * Real.cos (rad 10) ≤ Real.cos B := by
    have hmul := mul_le_mul_of_nonneg_left hcos_le (show (0 : ℝ) ≤ 6371 / 6791 by norm_num)
    linarith
  have harccos := le_arccos_of_le_cos hB0 hBpi (prod_bounds (rad 10)).1 hprod_le
  rw [footprint420_eq]
  have hmain : (1388 : ℝ) ≤
      6371 * (Real.arccos (6371 / 6791 * Real.cos (rad 10)) - rad 10) := by
    have hBe : (1388 : ℝ) / 6371 ≤ B - rad 10 := by
      rw [hB]
      linarith
    linarith
  exact le_trans hmain (le_max_right 0 _)

lemma f10_le : footprintRadiusKm 420 (rad 10) ≤ 1392 := by
  have hpil := Real.pi_gt_d6
  have hpiu := Real.pi_lt_d6
  have he_eq : rad 10 = 10 * π / 180 := rfl
  have hel : (0.17453288 : ℝ) ≤ rad 10 := by
    rw [he_eq]
    linarith
  have heh : rad 10 ≤ 0.17453295 := by
    rw [he_eq]
    linarith
  have he0 : (0 : ℝ) ≤ rad 10 := by
    linarith
  have hcos_ge : 1 - (0.17453295 : ℝ) ^ 2 / 2 + (0.17453295 : ℝ) ^ 4 / 24 -
      (0.17453295 : ℝ) ^ 6 / 720 ≤ Real.cos (rad 10) := by
    have h1 : Real.cos 0.17453295 ≤ Real.cos (rad 10) :=
      Real.cos_le_cos_of_nonneg_of_le_pi he0 (by linarith) heh
    have h2 := cos_ge_sextic 0.17453295 (by norm_num)
    linarith
  set B := (0.17453288 + 1392 / 6371 : ℝ) with hB
  have hB0 : (0 : ℝ) ≤ B := by
    rw [hB]
    norm_num
  have hBpi : B ≤ π := by
    rw [hB]
    linarith
  have hcosB_le := cos_le_quartic B hB0
  have hkey : 1 - B ^ 2 / 2 + B ^ 4 / 24 ≤
      (6371 / 6791 : ℝ) * (1 - (0.17453295 : ℝ) ^ 2 / 2 + (0.17453295 : ℝ) ^ 4 / 24 -
        (0.17453295 : ℝ) ^ 6 / 720) := by
    rw [hB]
    norm_num
  have hprod_ge : Real.cos B ≤ (6371 / 6791 : ℝ) * Real.cos (rad 10) := by
    have hmul := mul_le_mul_of_nonneg_left hcos_ge (show (0 : ℝ) ≤ 6371 / 6791 by norm_num)
    linarith
  have harccos := arccos_le_of_cos_le hB0 hBpi (prod_bounds (rad 10)).2 hprod_ge
  rw [footprint420_eq]
  refine max_le (by norm_num) ?_
  have hBe : B - rad 10 ≤ (1392 : ℝ) / 6371 := by
    rw [hB]
    linarith
  linarith

/-- C1 counterexample: at altitude 420 km the footprint formula with threshold 20°
does not return a radius within 2 km of 896 km (it returns about 908 km), so the
claimed pair of examples is false at its stated inputs. -/
theorem footprint_examples_refuted :
    ¬ (|footprintRadiusKm 420 (rad 20) - 896| ≤ 2 ∧
        |footprintRadiusKm 420 (rad 10) - 1390| ≤ 2) := by
  intro h
  have h1 := abs_le.mp h.1
  linarith [f20_ge, h1.2]

/-- C1 amended: with Earth radius 6371 km, altitude 420 km and threshold 20° the
footprint formula returns approximately 908 km (within ±2 km), and with
threshold 10° approximately 1390 km (within ±2 km). -/
theorem footprint_examples_amended :
    |footprintRadiusKm 420 (rad 20) - 908| ≤ 2 ∧
      |footprintRadiusKm 420 (rad 10) - 1390| ≤ 2 := by
  constructor
  · rw [abs_le]
    exact ⟨by linarith [f20_ge], by linarith [f20_le]⟩
  · rw [abs_le]
    exact ⟨by linarith [f10_ge], by linarith [f10_le]⟩

/-- Milliseconds-epoch to Julian day, `toJulian` in the source. -/
def toJulian (t : ℝ) : ℝ :=
  t / 86400000 + 2440587.5

/-- Days since J2000, `toDays` in the source. -/
def toDays (t : ℝ) : ℝ :=
  toJulian t - 2451545.0

/-- JavaScript truncation toward zero, underlying the `%` operator. -/
def jsTrunc (x : ℝ) : ℝ :=
  if 0 ≤ x then (⌊x⌋ : ℝ) else (⌈x⌉ : ℝ)

/-- JavaScript remainder `a % b` (sign follows the dividend). -/
def jsMod (a b : ℝ) : ℝ :=
  a - b * jsTrunc (a / b)

/-- Longitude normalization into (-180, 180], `normalizeLon` in the source:
`((lon + 180) % 360 + 360) % 360 - 180`, with an exact `-180` result mapped
to `180`. -/
def normalizeLon (lon : ℝ) : ℝ :=
  let r := jsMod (jsMod (lon + 180) 360 + 360) 360 - 180
  if r = -180 then 180 else r

/-- JavaScript `Math.atan2(y, x)`. -/
def atan2 (y x : ℝ) : ℝ :=
  if 0 < x then Real.arctan (y / x)
  else if x < 0 then
    (if 0 ≤ y then Real.arctan (y / x) + π else Real.arctan (y / x) - π)
  else if 0 < y then π / 2
  else if y < 0 then -(π / 2)
  else 0

/-- Subsolar point `(lat, lon)` in degrees at epoch-milliseconds `t`,
`getSubsolarPoint` in the source (low-precision solar position). -/
def getSubsolarPoint (t : ℝ) : ℝ × ℝ :=
  let d := toDays t
  let M := rad (357.5291 + 0.98560028 * d)
  let C := rad (1.9148 * Real.sin M + 0.02 * Real.sin (2 * M) +
    0.0003 * Real.sin (3 * M))
  let L := rad (280.4665 + 0.98564736 * d) + C
  let e := rad 23.4397
  let decl := Real.arcsin (Real.sin e * Real.sin L)
  let ra := atan2 (Real.cos e * Real.sin L) (Real.cos L)
  let theta := rad (280.16 + 360.9856235 * d)
  let gha := theta - ra
  (deg decl, normalizeLon (-(deg gha)))

/-- Terminator ring at epoch-milliseconds `t`, `computeDayBoundary` in the
source: 181 destination points at great-circle distance 90° from the subsolar
point, one per 2° of bearing, with normalized longitudes. -/
def computeDayBoundary (t : ℝ) : List (ℝ × ℝ) :=
  let p := getSubsolarPoint t
  let lat1 := rad p.1
  let lon1 := rad p.2
  let distance := π / 2
  (List.range 181).map (fun (i : ℕ) =>
    let brng := rad (2 * (i : ℝ))
    let lat2 := Real.arcsin (Real.sin lat1 * Real.cos distance +
      Real.cos lat1 * Real.sin distance * Real.cos brng)
    let lon2 := lon1 + atan2 (Real.sin brng * Real.sin distance * Real.cos lat1)
      (Real.cos distance - Real.sin lat1 * Real.sin lat2)
    (deg lat2, normalizeLon (deg lon2)))

lemma jsMod_nonneg_bounds (a : ℝ) (ha : 0 ≤ a) :
    0 ≤ jsMod a 360 ∧ jsMod a 360 < 360 := by
  have hq : (0 : ℝ) ≤ a / 360 := by positivity
  have hval : jsMod a 360 = a - 360 * (⌊a / 360⌋ : ℝ) := by
    unfold jsMod jsTrunc
    rw [if_pos hq]
  have hfr1 := Int.fract_nonneg (a / 360)
  have hfr2 := Int.fract_lt_one (a / 360)
  rw [Int.fract] at hfr1 hfr2
  have hcancel : a / 360 * 360 = a := by
    field_simp
  constructor
  · rw [hval]
    nlinarith
  · rw [hval]
    nlinarith

lemma jsMod_bounds_all (a : ℝ) : -360 < jsMod a 360 ∧ jsMod a 360 < 360 := by
  rcases le_or_lt 0 a with ha | ha
  · have h := jsMod_nonneg_bounds a ha
    exact ⟨by linarith [h.1], h.2⟩
  · have hq : ¬ (0 : ℝ) ≤ a / 360 := by
      intro hcon
      nlinarith
    have hval : jsMod a 360 = a - 360 * (⌈a / 360⌉ : ℝ) := by
      unfold jsMod jsTrunc
      rw [if_neg hq]
    have hc1 := Int.le_ceil (a / 360)
    have hc2 := Int.ceil_lt_add_one (a / 360)
    have hcancel : a / 360 * 360 = a := by
      field_simp
    constructor
    · rw [hval]
      nlinarith
    · rw [hval]
      nlinarith

lemma normalizeLon_bounds (x : ℝ) :
    -180 < normalizeLon x ∧ normalizeLon x ≤ 180 := by
  unfold normalizeLon
  have inner := jsMod_bounds_all (x + 180)
  have houter : 0 ≤ jsMod (x + 180) 360 + 360 := by linarith [inner.1]
  have outer := jsMod_nonneg_bounds (jsMod (x + 180) 360 + 360) houter
  by_cases hneg : jsMod (jsMod (x + 180) 360 + 360) 360 - 180 = -180
  · rw [if_pos hneg]
    norm_num
  · rw [if_neg hneg]
    have hge : -180 ≤ jsMod (jsMod (x + 180) 360 + 360) 360 - 180 := by
      linarith [outer.1]
    exact ⟨lt_of_le_of_ne hge (Ne.symm hneg), by linarith [outer.2]⟩

lemma subsolar_lat_bounded (t : ℝ) :
    -23.4397 ≤ (getSubsolarPoint t).1 ∧ (getSubsolarPoint t).1 ≤ 23.4397 := by
  have hπ := Real.pi_pos
  have hfst : (getSubsolarPoint t).1 =
      deg (Real.arcsin (Real.sin (rad 23.4397) *
        Real.sin (rad (280.4665 + 0.98564736 * toDays t) +
          rad (1.9148 * Real.sin (rad (357.5291 + 0.98560028 * toDays t)) +
            0.02 * Real.sin (2 * rad (357.5291 + 0.98560028 * toDays t)) +
            0.0003 * Real.sin (3 * rad (357.5291 + 0.98560028 * toDays t)))))) := rfl
  set L := rad (280.4665 + 0.98564736 * toDays t) +
    rad (1.9148 * Real.sin (rad (357.5291 + 0.98560028 * toDays t)) +
      0.02 * Real.sin (2 * rad (357.5291 + 0.98560028 * toDays t)) +
      0.0003 * Real.sin (3 * rad (357.5291 + 0.98560028 * toDays t))) with hL
  have he_eq : rad 23.4397 = 23.4397 * π / 180 := rfl
  have he0 : 0 ≤ rad 23.4397 := by
    rw [he_eq]
    positivity
  have heπ : rad 23.4397 ≤ π / 2 := by
    rw [he_eq]
    nlinarith
  have hsin_nonneg : 0 ≤ Real.sin (rad 23.4397) :=
    Real.sin_nonneg_of_nonneg_of_le_pi he0 (by nlinarith)
  have hupper : Real.sin (rad 23.4397) * Real.sin L ≤ Real.sin (rad 23.4397) := by
    nlinarith [Real.sin_le_one L, Real.neg_one_le_sin L]
  have hlower : -Real.sin (rad 23.4397) ≤ Real.sin (rad 23.4397) * Real.sin L := by
    nlinarith [Real.sin_le_one L, Real.neg_one_le_sin L]
  have harc_up : Real.arcsin (Real.sin (rad 23.4397) * Real.sin L) ≤ rad 23.4397 := by
    have h1 : Real.arcsin (Real.sin (rad 23.4397) * Real.sin L) ≤
        Real.arcsin (Real.sin (rad 23.4397)) := Real.monotone_arcsin hupper
    rw [Real.arcsin_sin (by linarith) heπ] at h1
    exact h1
  have harc_lo : -(rad 23.4397) ≤ Real.arcsin (Real.sin (rad 23.4397) * Real.sin L) := by
    have h1 : Real.arcsin (-Real.sin (rad 23.4397)) ≤
        Real.arcsin (Real.sin (rad 23.4397) * Real.sin L) := Real.monotone_arcsin hlower
    rw [← Real.sin_neg, Real.arcsin_sin (by linarith) (by linarith)] at h1
    exact h1
  rw [hfst]
  unfold deg
  have hpos : (0 : ℝ) ≤ 180 / π := by positivity
  have hconv : rad 23.4397 * (180 / π) = 23.4397 := by
    rw [he_eq]
    field_simp
  constructor
  · have h1 := mul_le_mul_of_nonneg_right harc_lo hpos
    rw [neg_mul, hconv] at h1
    rw [mul_div_assoc]
    exact h1
  · have h1 := mul_le_mul_of_nonneg_right harc_up hpos
    rw [hconv] at h1
    rw [mul_div_assoc]
    exact h1

/-- C7: every longitude value in the terminator ring lies in (-180, 180] (an
out-of-range index yields the in-range default), and the subsolar latitude is
bounded in magnitude by the obliquity constant 23.4397°, hence lies within
[-23.5°, 23.5°], at every instant. -/
theorem terminator_lon_normalized_subsolar_bounded (t : ℝ) (i : ℕ) :
    (-180 < ((computeDayBoundary t).getD i (0, 0)).2 ∧
        ((computeDayBoundary t).getD i (0, 0)).2 ≤ 180) ∧
      (-23.5 ≤ (getSubsolarPoint t).1 ∧ (getSubsolarPoint t).1 ≤ 23.5) := by
  constructor
  · by_cases hi : i < (computeDayBoundary t).length
    · rw [List.getD_eq_getElem _ _ hi]
      have hlen : (computeDayBoundary t).length = 181 := by
        simp only [computeDayBoundary, List.length_map, List.length_range]
      have hi' : i < 181 := by omega
      have hget : (computeDayBoundary t)[i] =
          ((List.range 181).map (fun (j : ℕ) =>
            let brng := rad (2 * (j : ℝ))
            let lat2 := Real.arcsin (Real.sin (rad (getSubsolarPoint t).1) * Real.cos (π / 2) +
              Real.cos (rad (getSubsolarPoint t).1) * Real.sin (π / 2) * Real.cos brng)
            let lon2 := rad (getSubsolarPoint t).2 +
              atan2 (Real.sin brng * Real.sin (π / 2) * Real.cos (rad (getSubsolarPoint t).1))
                (Real.cos (π / 2) - Real.sin (rad (getSubsolarPoint t).1) * Real.sin lat2)
            (deg lat2, normalizeLon (deg lon2))))[i] := rfl
      rw [hget, List.getElem_map]
      exact normalizeLon_bounds _
    · rw [List.getD_eq_default _ _ (le_of_not_lt hi)]
      norm_num
  · have h := subsolar_lat_bounded t
    exact ⟨by linarith [h.1], by linarith [h.2]⟩

end

end IssTracker
